import Mathlib

/-!
Shallow embedding of the streaming chat-to-audio pipeline of
`src/handlers/chatHandlersVer0910.js` (the theme-aware, authenticated,
sequential-streaming variant: `detectThemes`, `generateSystemPrompt`,
`handleChat` / `streamResponse`).

Strings are modelled as `List Char`.  JavaScript's dynamic values are
modelled by small inductive types where the code relies on them.
-/

namespace ChatPipeline

/-- `const OPENAI_TTS_TEXT_LENGTH_MAX = 4096;` -/
def OPENAI_TTS_TEXT_LENGTH_MAX : Nat := 4096

/-- The character class of the regex `/[a-zA-Z0-9]/` used in the paragraph
filter: ASCII letters and digits. -/
def isAlnumChar (c : Char) : Bool :=
  ('a' ≤ c && c ≤ 'z') || ('A' ≤ c && c ≤ 'Z') || ('0' ≤ c && c ≤ '9')

/-- Characters stripped by JavaScript's `String.prototype.trim`
(WhiteSpace and LineTerminator code points). -/
def jsWsChars : List Char :=
  ['\t', '\n', '\x0b', '\x0c', '\r', ' ', ' ', ' ',
   ' ', ' ', ' ', ' ', ' ', ' ', ' ',
   ' ', ' ', ' ', ' ', ' ', ' ', ' ',
   ' ', '　', '﻿']

def isJsWs (c : Char) : Bool := c ∈ jsWsChars

/-- JavaScript `s.trim()`: strip leading and trailing whitespace. -/
def jsTrim (l : List Char) : List Char :=
  ((l.dropWhile isJsWs).reverse.dropWhile isJsWs).reverse

/-- JavaScript `s.split('\n')` (single-character separator): the list of
maximal `'\n'`-free segments; always non-empty, and `"".split('\n') = [""]`. -/
def splitOnNl : List Char → List (List Char)
  | [] => [[]]
  | c :: cs =>
    if c = '\n' then [] :: splitOnNl cs
    else
      match splitOnNl cs with
      | [] => [[c]]
      | u :: us => (c :: u) :: us

/-- The paragraph filter
`para => para.trim() !== '' && /[a-zA-Z0-9]/.test(para)`. -/
def keepPara (p : List Char) : Bool :=
  !(jsTrim p).isEmpty && p.any isAlnumChar

/-- The Paragraph Segmenter:
`assistantMessage.content.split('\n').filter(para => para.trim() !== '' && /[a-zA-Z0-9]/.test(para))`. -/
def segmentParagraphs (content : List Char) : List (List Char) :=
  (splitOnNl content).filter keepPara

/-- One element of a structured (visual-chat) content array:
`{ type: 'text', text }` or `{ type: 'image_url', image_url: { url } }`. -/
inductive ContentPart where
  | text (s : List Char)
  | imageUrl (url : List Char)
deriving DecidableEq, Repr

/-- The `content` field of a dialog message: either a plain string or an
array of content objects (visual chat). -/
inductive MsgContent where
  | str (s : List Char)
  | parts (l : List ContentPart)
deriving DecidableEq, Repr

/-- A message of the dialog history: `{ role, content }`. -/
structure ChatMessage where
  role : String
  content : MsgContent
deriving DecidableEq, Repr

/-- One entry of the `THEMES` registry. -/
structure ThemeEntry where
  type : String
  keywords : List (List Char)
  storyPrompt : String
  qnaPrompt : String
deriving DecidableEq, Repr

/-- The `THEMES` constant table (keyword sets as in the source; the prompt
fragments are irrelevant to the verified claims and elided to their keys). -/
def themesList : List ThemeEntry :=
  [⟨"ADVENTURE",
    ["adventure".toList, "explore".toList, "quest".toList, "journey".toList,
     "discover".toList, "mission".toList, "expedition".toList, "treasure".toList,
     "map".toList], "ADVENTURE.storyPrompt", "ADVENTURE.qnaPrompt"⟩,
   ⟨"FAMILY",
    ["family".toList, "parents".toList, "siblings".toList, "home".toList,
     "relatives".toList], "FAMILY.storyPrompt", "FAMILY.qnaPrompt"⟩,
   ⟨"FRIENDSHIP",
    ["friends".toList, "friendship".toList, "teamwork".toList, "loyalty".toList],
    "FRIENDSHIP.storyPrompt", "FRIENDSHIP.qnaPrompt"⟩,
   ⟨"MAGIC",
    ["magic".toList, "wizard".toList, "witch".toList, "spell".toList,
     "magical".toList, "enchanted".toList], "MAGIC.storyPrompt", "MAGIC.qnaPrompt"⟩,
   ⟨"SCIFI",
    ["space".toList, "future".toList, "robot".toList, "technology".toList,
     "science".toList], "SCIFI.storyPrompt", "SCIFI.qnaPrompt"⟩,
   ⟨"COMEDY",
    ["funny".toList, "humor".toList, "laugh".toList, "joke".toList,
     "silly".toList], "COMEDY.storyPrompt", "COMEDY.qnaPrompt"⟩,
   ⟨"GROWTH",
    ["learn".toList, "grow".toList, "change".toList, "understand".toList,
     "realize".toList], "GROWTH.storyPrompt", "GROWTH.qnaPrompt"⟩]

/-- JavaScript `toLowerCase` on the characters involved here. -/
def toLowerStr (l : List Char) : List Char := l.map Char.toLower

/-- The `messageText` computed at the top of `detectThemes(userMessage)`.
The function is invoked as `detectThemes(lastMessage.content)`, so
`userMessage` is already the content value.  When that value is an array of
content parts, `Array.isArray(userMessage.content)` reads the `content`
property OF THE ARRAY, which is `undefined`, so the branch that joins the
text parts never fires and `messageText` remains `''`. -/
def detectThemesText : MsgContent → List Char
  | .str s => s
  | .parts _ => []

/-- The flattening the array branch of `detectThemes` would compute if it
were reached: `userMessage.content.filter(item => item.type === 'text').map(item => item.text).join(' ')`. -/
def textPartsJoined (l : List ContentPart) : List Char :=
  List.intercalate [' '] (l.filterMap (fun p =>
    match p with
    | .text s => some s
    | .imageUrl _ => none))

/-- JavaScript `s.includes(pat)`: `pat` occurs as a contiguous substring. -/
def strIncludes (s pat : List Char) : Bool := decide (pat <:+: s)

/-- The keyword scan of `detectThemes`:
`Object.entries(THEMES).filter(([_, theme]) => theme.keywords.some(keyword => messageText.toLowerCase().includes(keyword)))`. -/
def matchedThemes (messageText : List Char) : List ThemeEntry :=
  themesList.filter (fun th =>
    th.keywords.any (fun kw => strIncludes (toLowerStr messageText) kw))

/-- `detectThemes(userMessage)`, with the random index used by the fallback
(`Math.floor(Math.random() * themeKeys.length)`, uniform over `0..6`) made
an explicit parameter. -/
def detectThemes (userMessage : MsgContent) (rand : Fin themesList.length) :
    List ThemeEntry :=
  let detected := matchedThemes (detectThemesText userMessage)
  if detected.isEmpty then [themesList.get rand] else detected

/-- `currentParagraph` of a progress record. -/
structure ParagraphUnit where
  index : Nat
  text : List Char
  audio : List Char
deriving DecidableEq, Repr

/-- One JSON line written to the stream: `{dialogHistory, currentParagraph}`
for progress, `{dialogHistory, currentParagraph: null, error}` for the
terminal failure record. -/
structure StreamRecord where
  dialogHistory : List ChatMessage
  currentParagraph : Option ParagraphUnit
  error : Option String
deriving DecidableEq, Repr

/-- Observable outcome of `streamResponse`: the records written (in order),
the `(index, text)` pairs the speech synthesizer was invoked on (in order),
and whether the writer was closed. -/
structure StreamResult where
  records : List StreamRecord
  synthCalls : List (Nat × List Char)
  closed : Bool
deriving DecidableEq, Repr

/-- The terminal failure record `{ dialogHistory, currentParagraph: null, error: error.message }`. -/
def errorRecord (h : List ChatMessage) (e : String) : StreamRecord :=
  ⟨h, none, some e⟩

/-- The `for (let i = 0; i < paragraphs.length; i++)` loop of
`streamResponse`, together with the surrounding `catch`: oversized
paragraphs are skipped by `continue` (the loop variable `i` still
advances), otherwise `getOpenAIAudio` is invoked and one progress record is
written; the first exception (a failed synthesis call) falls to the `catch`
block, which writes the terminal error record — unless writing that record
itself throws (`errWriteOk = false`), in which case nothing more is
written.  Returns the records written by the loop and the synthesizer
invocations made. -/
def emitLoop (hist : List ChatMessage)
    (synth : Nat → List Char → Except String (List Char))
    (errWriteOk : Bool) :
    Nat → List (List Char) → List StreamRecord × List (Nat × List Char)
  | _, [] => ([], [])
  | i, p :: ps =>
    if p.length > OPENAI_TTS_TEXT_LENGTH_MAX then
      emitLoop hist synth errWriteOk (i + 1) ps
    else
      match synth i p with
      | .ok audio =>
        let rest := emitLoop hist synth errWriteOk (i + 1) ps
        (⟨hist, some ⟨i, p, audio⟩, none⟩ :: rest.1, (i, p) :: rest.2)
      | .error e =>
        ((if errWriteOk then [errorRecord hist e] else []), [(i, p)])

/-- The `streamResponse` closure of `handleChat`.  External effects are
oracles: `completion` is the outcome of the single
`getOpenAIChatResponse` call (`.ok content` = the assistant message text,
`.error e` = the raised error's message), `synth` the outcome of each
`getOpenAIAudio` call, and `errWriteOk` whether writing the terminal error
record succeeds.  On success the assistant message is pushed onto
`dialogHistory` once, before the loop; the `finally` block closes the
writer on every path. -/
def streamResponse (dialogHistory : List ChatMessage)
    (completion : Except String (List Char))
    (synth : Nat → List Char → Except String (List Char))
    (errWriteOk : Bool) : StreamResult :=
  match completion with
  | .error e =>
    ⟨if errWriteOk then [errorRecord dialogHistory e] else [], [], true⟩
  | .ok content =>
    let newHistory := dialogHistory ++ [⟨"assistant", .str content⟩]
    let paragraphs := segmentParagraphs content
    let out := emitLoop newHistory synth errWriteOk 0 paragraphs
    ⟨out.1, out.2, true⟩

/-- The inputs `handleChat` inspects before any stream exists.  External
effects are again oracles: `userFound` is the outcome of
`getUserByEmail`, `currentTimeParseOk` the outcome of
`!isNaN(Date.parse(currentLocalTime))`, and `bodyParseOk` whether
`request.json()` succeeded AND `body.dialogHistory` is an array. -/
structure RequestEnv where
  method : String
  userFound : Bool
  currentYear : Int
  yob : Int
  queryTypeParam : Option String
  currentTimeParam : Option String
  currentTimeParseOk : Bool
  visualTaskParam : Option String
  bodyParseOk : Bool
  dialogHistory : List ChatMessage

/-- A synchronous (non-streaming) HTTP error response. -/
structure HttpError where
  status : Nat
  message : String
deriving DecidableEq, Repr

/-- JavaScript truthiness of `url.searchParams.get(...)`: `null` and the
empty string are falsy. -/
def paramTruthy : Option String → Bool
  | none => false
  | some s => !(s = "")

def validQueryTypes : List String := ["story", "qna"]

def validVisualTasks : List String :=
  ["Micro", "Plants", "Animals", "Insects", "Daily", "Translation"]

/-- The guard chain of `handleChat` up to and including the dialog-history
check, followed by the streaming phase.  `.error` is a synchronous response
returned before `new TransformStream()` is ever constructed; `.ok` is the
streamed outcome. -/
def handleChat (env : RequestEnv)
    (completion : Except String (List Char))
    (synth : Nat → List Char → Except String (List Char))
    (errWriteOk : Bool) : Except HttpError StreamResult :=
  if env.method ≠ "POST" then
    .error ⟨405, "This endpoint only accepts POST requests"⟩
  else if !env.userFound then
    .error ⟨404, "User not found"⟩
  else if env.currentYear - env.yob < 0 then
    .error ⟨400, "Invalid year of birth"⟩
  else
    let queryType := env.queryTypeParam.getD "qna"
    if ¬ queryType ∈ validQueryTypes then
      .error ⟨400, "Invalid query_type"⟩
    else if paramTruthy env.currentTimeParam && !env.currentTimeParseOk then
      .error ⟨400, "Invalid current_time"⟩
    else if paramTruthy env.visualTaskParam &&
        !((env.visualTaskParam.getD "") ∈ validVisualTasks : Bool) then
      .error ⟨400, "Invalid visual_task"⟩
    else if !env.bodyParseOk then
      .error ⟨400, "Invalid request body. Expected JSON with a dialogHistory array."⟩
    else if env.dialogHistory.length = 0 ∨
        (env.dialogHistory.getLast?.map ChatMessage.role) ≠ some "user" then
      .error ⟨400, "The last message must be from the user"⟩
    else
      .ok (streamResponse env.dialogHistory completion synth errWriteOk)

/-- `"\n".join(units)`: the newline-join of a unit sequence (used to state
the segmenter's idempotence-adjacent property). -/
def joinNl : List (List Char) → List Char
  | [] => []
  | [u] => u
  | u :: v :: rest => u ++ '\n' :: joinNl (v :: rest)

/-- The message of the first exception raised by a synthesis call during
the paragraph loop (mirrors the loop's skip/stop structure): `none` when
every in-bound paragraph synthesizes successfully. -/
def firstSynthErr (synth : Nat → List Char → Except String (List Char)) :
    Nat → List (List Char) → Option String
  | _, [] => none
  | i, p :: ps =>
    if p.length > OPENAI_TTS_TEXT_LENGTH_MAX then firstSynthErr synth (i + 1) ps
    else
      match synth i p with
      | .ok _ => firstSynthErr synth (i + 1) ps
      | .error e => some e

/-- The message of the first exception raised after the stream is opened:
either the completion call's error or the first synthesis error. -/
def terminalError (completion : Except String (List Char))
    (synth : Nat → List Char → Except String (List Char)) : Option String :=
  match completion with
  | .error e => some e
  | .ok content => firstSynthErr synth 0 (segmentParagraphs content)

/-- The `currentParagraph.index` values of the progress records of a
stream, in emission order. -/
def progressIndices (recs : List StreamRecord) : List Nat :=
  recs.filterMap (fun r => r.currentParagraph.map ParagraphUnit.index)

/-- A paragraph one character over the synthesizer's 4096-character limit. -/
def bigPara : List Char := List.replicate 4097 'a'

/-- An assistant reply whose first surviving paragraph is oversized:
4097 copies of `a`, a newline, then `b`. -/
def cexContent : List Char := bigPara ++ '\n' :: ['b']

/-- A synthesis oracle that always succeeds (returns the audio `"x"`). -/
def constSynth : Nat → List Char → Except String (List Char) :=
  fun _ _ => .ok ['x']

/-! ### Lemmas about the segmenter -/

lemma splitOnNl_ne_nil (s : List Char) : splitOnNl s ≠ [] := by
  cases s with
  | nil => simp [splitOnNl]
  | cons c cs =>
    simp only [splitOnNl]
    by_cases hc : c = '\n'
    · simp [hc]
    · rw [if_neg hc]
      cases h : splitOnNl cs <;> simp

lemma not_nl_mem_splitOnNl :
    ∀ {s u : List Char}, u ∈ splitOnNl s → '\n' ∉ u := by
  intro s
  induction s with
  | nil =>
    intro u hu
    simp only [splitOnNl, List.mem_singleton] at hu
    subst hu; simp
  | cons c cs ih =>
    intro u hu
    simp only [splitOnNl] at hu
    by_cases hc : c = '\n'
    · rw [if_pos hc] at hu
      rcases List.mem_cons.mp hu with h | h
      · subst h; simp
      · exact ih h
    · rw [if_neg hc] at hu
      cases hsp : splitOnNl cs with
      | nil => exact absurd hsp (splitOnNl_ne_nil cs)
      | cons v vs =>
        rw [hsp] at hu
        rcases List.mem_cons.mp hu with h | h
        · subst h
          intro hmem
          rcases List.mem_cons.mp hmem with h' | h'
          · exact hc h'.symm
          · exact ih (hsp ▸ List.mem_cons_self v vs) h'
        · exact ih (hsp ▸ List.mem_cons_of_mem v h)

lemma splitOnNl_of_not_mem {u : List Char} (h : '\n' ∉ u) :
    splitOnNl u = [u] := by
  induction u with
  | nil => simp [splitOnNl]
  | cons c cs ih =>
    have hc : ¬ c = '\n' := fun e => h (by rw [e]; exact List.mem_cons_self _ _)
    have hcs : '\n' ∉ cs := fun m => h (List.mem_cons_of_mem _ m)
    simp [splitOnNl, if_neg hc, ih hcs]

lemma splitOnNl_append (u t : List Char) (h : '\n' ∉ u) :
    splitOnNl (u ++ '\n' :: t) = u :: splitOnNl t := by
  induction u with
  | nil => simp [splitOnNl]
  | cons c cs ih =>
    have hc : ¬ c = '\n' := fun e => h (by rw [e]; exact List.mem_cons_self _ _)
    have hcs : '\n' ∉ cs := fun m => h (List.mem_cons_of_mem _ m)
    rw [List.cons_append]
    simp only [splitOnNl, if_neg hc, ih hcs]

lemma splitOnNl_joinNl (ps : List (List Char)) (hne : ps ≠ [])
    (hall : ∀ u ∈ ps, '\n' ∉ u) : splitOnNl (joinNl ps) = ps := by
  induction ps with
  | nil => exact absurd rfl hne
  | cons u rest ih =>
    cases rest with
    | nil => simp [joinNl, splitOnNl_of_not_mem (hall u (by simp))]
    | cons v rest' =>
      rw [show joinNl (u :: v :: rest') = u ++ '\n' :: joinNl (v :: rest') from rfl]
      rw [splitOnNl_append _ _ (hall u (by simp))]
      rw [ih (by simp) (fun w hw => hall w (List.mem_cons_of_mem _ hw))]

lemma alnum_not_ws {c : Char} (h : isAlnumChar c = true) : isJsWs c = false := by
  have hd : ∀ x ∈ jsWsChars, isAlnumChar x = false := by decide
  cases hw : isJsWs c with
  | false => rfl
  | true =>
    have hmem : c ∈ jsWsChars := by
      simpa [isJsWs] using hw
    rw [hd c hmem] at h
    exact absurd h (by simp)

lemma jsTrim_ne_nil {p : List Char} {c : Char} (hc : c ∈ p)
    (hw : isJsWs c = false) : (jsTrim p).isEmpty = false := by
  have hc0 : c ∈ p.takeWhile isJsWs ++ p.dropWhile isJsWs := by
    rw [List.takeWhile_append_dropWhile]; exact hc
  have hc1 : c ∈ p.dropWhile isJsWs := by
    rcases List.mem_append.mp hc0 with h | h
    · exact absurd (List.mem_takeWhile_imp h) (by simp [hw])
    · exact h
  have hc2 : c ∈ (p.dropWhile isJsWs).reverse := List.mem_reverse.mpr hc1
  have h2 : (p.dropWhile isJsWs).reverse.dropWhile isJsWs ≠ [] := by
    intro he
    rw [List.dropWhile_eq_nil_iff] at he
    have := he c hc2
    simp [hw] at this
  simp [jsTrim, List.isEmpty_iff, h2]

lemma keepPara_eq_any (p : List Char) : keepPara p = p.any isAlnumChar := by
  cases ha : p.any isAlnumChar with
  | false => simp [keepPara, ha]
  | true =>
    obtain ⟨c, hc, hal⟩ := List.any_eq_true.mp ha
    simp [keepPara, ha, jsTrim_ne_nil hc (alnum_not_ws hal)]

/-! ### Lemmas about the emission loop -/

lemma emitLoop_dialogHistory (h : List ChatMessage)
    (s : Nat → List Char → Except String (List Char)) (w : Bool) :
    ∀ (ps : List (List Char)) (i : Nat),
      ∀ r ∈ (emitLoop h s w i ps).1, r.dialogHistory = h := by
  intro ps
  induction ps with
  | nil => intro i r hr; simp [emitLoop] at hr
  | cons p ps ih =>
    intro i r hr
    simp only [emitLoop] at hr
    by_cases hlen : p.length > OPENAI_TTS_TEXT_LENGTH_MAX
    · rw [if_pos hlen] at hr
      exact ih _ r hr
    · rw [if_neg hlen] at hr
      cases hs : s i p with
      | ok audio =>
        rw [hs] at hr
        simp only [List.mem_cons] at hr
        rcases hr with h' | h'
        · subst h'; rfl
        · exact ih _ r h'
      | error e =>
        rw [hs] at hr
        by_cases hw : w = true
        · simp only [hw, if_true, List.mem_singleton] at hr
          subst hr; rfl
        · simp only [Bool.not_eq_true] at hw
          simp [hw] at hr

lemma emitLoop_synthCalls (h : List ChatMessage)
    (s : Nat → List Char → Except String (List Char)) (w : Bool) :
    ∀ (ps : List (List Char)) (i : Nat),
      ∀ cp ∈ (emitLoop h s w i ps).2,
        cp.2.length ≤ OPENAI_TTS_TEXT_LENGTH_MAX ∧ cp.2 ∈ ps := by
  intro ps
  induction ps with
  | nil => intro i cp hcp; simp [emitLoop] at hcp
  | cons p ps ih =>
    intro i cp hcp
    simp only [emitLoop] at hcp
    by_cases hlen : p.length > OPENAI_TTS_TEXT_LENGTH_MAX
    · rw [if_pos hlen] at hcp
      obtain ⟨h1, h2⟩ := ih _ cp hcp
      exact ⟨h1, List.mem_cons_of_mem _ h2⟩
    · rw [if_neg hlen] at hcp
      cases hs : s i p with
      | ok audio =>
        rw [hs] at hcp
        simp only [List.mem_cons] at hcp
        rcases hcp with h' | h'
        · subst h'; exact ⟨Nat.le_of_not_lt hlen, List.mem_cons_self _ _⟩
        · obtain ⟨h1, h2⟩ := ih _ cp h'
          exact ⟨h1, List.mem_cons_of_mem _ h2⟩
      | error e =>
        rw [hs] at hcp
        simp only [List.mem_singleton] at hcp
        subst hcp
        exact ⟨Nat.le_of_not_lt hlen, List.mem_cons_self _ _⟩

lemma emitLoop_progress_para (h : List ChatMessage)
    (s : Nat → List Char → Except String (List Char)) (w : Bool) :
    ∀ (ps : List (List Char)) (i : Nat),
      ∀ r ∈ (emitLoop h s w i ps).1, ∀ u, r.currentParagraph = some u →
        u.text.length ≤ OPENAI_TTS_TEXT_LENGTH_MAX ∧ u.text ∈ ps := by
  intro ps
  induction ps with
  | nil => intro i r hr; simp [emitLoop] at hr
  | cons p ps ih =>
    intro i r hr u hu
    simp only [emitLoop] at hr
    by_cases hlen : p.length > OPENAI_TTS_TEXT_LENGTH_MAX
    · rw [if_pos hlen] at hr
      obtain ⟨h1, h2⟩ := ih _ r hr u hu
      exact ⟨h1, List.mem_cons_of_mem _ h2⟩
    · rw [if_neg hlen] at hr
      cases hs : s i p with
      | ok audio =>
        rw [hs] at hr
        simp only [List.mem_cons] at hr
        rcases hr with h' | h'
        · subst h'
          simp only at hu
          cases hu
          exact ⟨Nat.le_of_not_lt hlen, List.mem_cons_self _ _⟩
        · obtain ⟨h1, h2⟩ := ih _ r h' u hu
          exact ⟨h1, List.mem_cons_of_mem _ h2⟩
      | error e =>
        rw [hs] at hr
        by_cases hw : w = true
        · simp only [hw, if_true, List.mem_singleton] at hr
          subst hr
          simp [errorRecord] at hu
        · simp only [Bool.not_eq_true] at hw
          simp [hw] at hr

lemma emitLoop_indices (h : List ChatMessage)
    (s : Nat → List Char → Except String (List Char)) (w : Bool) :
    ∀ (ps : List (List Char)) (i : Nat),
      List.Pairwise (· < ·) (progressIndices (emitLoop h s w i ps).1) ∧
      (∀ j ∈ progressIndices (emitLoop h s w i ps).1, i ≤ j) := by
  intro ps
  induction ps with
  | nil => intro i; simp [emitLoop, progressIndices]
  | cons p ps ih =>
    intro i
    simp only [emitLoop]
    by_cases hlen : p.length > OPENAI_TTS_TEXT_LENGTH_MAX
    · rw [if_pos hlen]
      obtain ⟨h1, h2⟩ := ih (i + 1)
      exact ⟨h1, fun j hj => Nat.le_of_succ_le (h2 j hj)⟩
    · rw [if_neg hlen]
      cases hs : s i p with
      | ok audio =>
        obtain ⟨h1, h2⟩ := ih (i + 1)
        have hpi : progressIndices
            ((⟨h, some ⟨i, p, audio⟩, none⟩ : StreamRecord) ::
              (emitLoop h s w (i + 1) ps).1) =
            i :: progressIndices (emitLoop h s w (i + 1) ps).1 := by
          simp [progressIndices]
        constructor
        · simp only [hpi]
          exact List.pairwise_cons.mpr
            ⟨fun j hj => Nat.lt_of_succ_le (h2 j hj), h1⟩
        · simp only [hpi]
          intro j hj
          rcases List.mem_cons.mp hj with h' | h'
          · exact h'.ge
          · exact Nat.le_of_succ_le (h2 j h')
      | error e =>
        by_cases hw : w = true
        · simp [hw, progressIndices, errorRecord]
        · simp only [Bool.not_eq_true] at hw
          simp [hw, progressIndices]

lemma emitLoop_all_ok (h : List ChatMessage)
    (s : Nat → List Char → Except String (List Char)) (w : Bool)
    (hok : ∀ k q, ∃ a, s k q = .ok a) :
    ∀ (ps : List (List Char)),
      (∀ q ∈ ps, ¬ q.length > OPENAI_TTS_TEXT_LENGTH_MAX) →
      ∀ i,
        progressIndices (emitLoop h s w i ps).1 = List.range' i ps.length ∧
        (emitLoop h s w i ps).1.length = ps.length ∧
        ∀ r ∈ (emitLoop h s w i ps).1, r.error = none := by
  intro ps
  induction ps with
  | nil => intro _ i; simp [emitLoop, progressIndices]
  | cons p ps ih =>
    intro hlen i
    obtain ⟨a, ha⟩ := hok i p
    simp only [emitLoop, if_neg (hlen p (List.mem_cons_self _ _)), ha]
    obtain ⟨h1, h2, h3⟩ := ih (fun q hq => hlen q (List.mem_cons_of_mem _ hq)) (i + 1)
    refine ⟨?_, ?_, ?_⟩
    · rw [List.length_cons, List.range'_succ]
      simp only [progressIndices, List.filterMap_cons]
      simp only [progressIndices] at h1
      simp [h1]
    · simp [h2]
    · intro r hr
      rcases List.mem_cons.mp hr with h' | h'
      · subst h'; rfl
      · exact h3 r h'

lemma emitLoop_err_none (h : List ChatMessage)
    (s : Nat → List Char → Except String (List Char)) (w : Bool) :
    ∀ (ps : List (List Char)) (i : Nat), firstSynthErr s i ps = none →
      ∀ r ∈ (emitLoop h s w i ps).1, r.error = none := by
  intro ps
  induction ps with
  | nil => intro i _ r hr; simp [emitLoop] at hr
  | cons p ps ih =>
    intro i hfe r hr
    simp only [firstSynthErr] at hfe
    simp only [emitLoop] at hr
    by_cases hlen : p.length > OPENAI_TTS_TEXT_LENGTH_MAX
    · rw [if_pos hlen] at hfe hr
      exact ih _ hfe r hr
    · rw [if_neg hlen] at hfe hr
      cases hs : s i p with
      | ok audio =>
        rw [hs] at hfe hr
        simp only [List.mem_cons] at hr
        rcases hr with h' | h'
        · subst h'; rfl
        · exact ih _ hfe r h'
      | error e =>
        rw [hs] at hfe
        simp at hfe

lemma emitLoop_err_some (h : List ChatMessage)
    (s : Nat → List Char → Except String (List Char)) (w : Bool) :
    ∀ (ps : List (List Char)) (i : Nat) (e : String),
      firstSynthErr s i ps = some e →
      (emitLoop h s w i ps).1.filter (fun r => r.error.isSome) =
        (if w then [errorRecord h e] else []) ∧
      (w = true → (emitLoop h s w i ps).1.getLast? = some (errorRecord h e)) := by
  intro ps
  induction ps with
  | nil => intro i e hfe; simp [firstSynthErr] at hfe
  | cons p ps ih =>
    intro i e hfe
    simp only [firstSynthErr] at hfe
    simp only [emitLoop]
    by_cases hlen : p.length > OPENAI_TTS_TEXT_LENGTH_MAX
    · rw [if_pos hlen] at hfe ⊢
      exact ih _ _ hfe
    · rw [if_neg hlen] at hfe ⊢
      cases hs : s i p with
      | ok audio =>
        rw [hs] at hfe
        obtain ⟨h1, h2⟩ := ih _ _ hfe
        constructor
        · simp only [List.filter_cons]
          simpa using h1
        · intro hw
          have h2' := h2 hw
          cases htail : (emitLoop h s w (i + 1) ps).1 with
          | nil => rw [htail] at h2'; simp at h2'
          | cons x xs =>
            rw [htail] at h2'
            dsimp only
            rw [List.getLast?_cons_cons]
            exact h2'
      | error e' =>
        rw [hs] at hfe
        simp only [Option.some.injEq] at hfe
        subst hfe
        by_cases hw : w = true
        · simp [hw, errorRecord]
        · simp only [Bool.not_eq_true] at hw
          simp [hw]

lemma firstSynthErr_all_ok
    (s : Nat → List Char → Except String (List Char))
    (hok : ∀ k q, ∃ a, s k q = .ok a) :
    ∀ (ps : List (List Char)) (i : Nat), firstSynthErr s i ps = none := by
  intro ps
  induction ps with
  | nil => intro i; rfl
  | cons p ps ih =>
    intro i
    obtain ⟨a, ha⟩ := hok i p
    simp only [firstSynthErr, ha]
    by_cases hlen : p.length > OPENAI_TTS_TEXT_LENGTH_MAX
    · rw [if_pos hlen]; exact ih _
    · rw [if_neg hlen]; exact ih _

lemma chain_le_of_const {l : List StreamRecord} {hh : List ChatMessage}
    (hc : ∀ r ∈ l, r.dialogHistory = hh) :
    List.Chain' (· ≤ ·) (l.map fun r => r.dialogHistory.length) := by
  induction l with
  | nil => simp
  | cons r rest ih =>
    cases rest with
    | nil => simp
    | cons r2 rest2 =>
      rw [List.map_cons, List.map_cons, List.chain'_cons]
      constructor
      · rw [hc r (List.mem_cons_self _ _),
          hc r2 (List.mem_cons_of_mem _ (List.mem_cons_self _ _))]
      · exact ih (fun x hx => hc x (List.mem_cons_of_mem _ hx))

/-! ### Evaluation of the concrete counterexample inputs -/

lemma bigPara_length : bigPara.length = 4097 := by
  rw [bigPara, List.length_replicate]

lemma nl_not_mem_bigPara : '\n' ∉ bigPara := by
  intro h
  have := List.eq_of_mem_replicate h
  simp at this

lemma keepPara_bigPara : keepPara bigPara = true := by
  rw [keepPara_eq_any]
  exact List.any_eq_true.mpr
    ⟨'a', List.mem_replicate.mpr ⟨by decide, rfl⟩, by decide⟩

lemma segment_cexContent : segmentParagraphs cexContent = [bigPara, ['b']] := by
  have h2 : splitOnNl cexContent = bigPara :: splitOnNl ['b'] :=
    splitOnNl_append _ _ nl_not_mem_bigPara
  have h3 : splitOnNl (['b'] : List Char) = [['b']] := by decide
  rw [segmentParagraphs, h2, h3]
  rw [List.filter_cons, keepPara_bigPara]
  simp only [if_true]
  rw [List.filter_cons]
  norm_num [show keepPara ['b'] = true from by decide, List.filter_nil]

lemma segment_bigPara : segmentParagraphs bigPara = [bigPara] := by
  rw [segmentParagraphs, splitOnNl_of_not_mem nl_not_mem_bigPara]
  rw [List.filter_cons, keepPara_bigPara]
  simp

/-! ### Claim theorems -/

/-- C8: the Paragraph Segmenter splits the assistant text on newline, keeps
the surviving units in their original relative order (the output is a
sublist of the split), every surviving unit has a non-empty trimmed form
and contains an ASCII letter or digit, every split unit violating either
condition is dropped, and when the whole reply is filtered out the stream
emits zero progress records and no error record and still closes. -/
theorem c8_segmenter (content : List Char) :
    List.Sublist (segmentParagraphs content) (splitOnNl content) ∧
    (∀ u ∈ segmentParagraphs content,
      (jsTrim u).isEmpty = false ∧ u.any isAlnumChar = true) ∧
    (∀ u ∈ splitOnNl content,
      ((jsTrim u).isEmpty = true ∨ u.any isAlnumChar = false) →
        u ∉ segmentParagraphs content) ∧
    (∀ (h : List ChatMessage)
      (s : Nat → List Char → Except String (List Char)) (w : Bool),
      segmentParagraphs content = [] →
        (streamResponse h (.ok content) s w).records = [] ∧
        (streamResponse h (.ok content) s w).closed = true) := by
  refine ⟨List.filter_sublist _, ?_, ?_, ?_⟩
  · intro u hu
    have hk : keepPara u = true := List.of_mem_filter hu
    rw [keepPara] at hk
    simp only [Bool.and_eq_true] at hk
    exact ⟨by simpa using hk.1, hk.2⟩
  · intro u _ hbad hmem
    have hk : keepPara u = true := List.of_mem_filter hmem
    rw [keepPara, Bool.and_eq_true] at hk
    rcases hbad with hb | hb
    · rw [hb] at hk; simp at hk
    · rw [hb] at hk; simp at hk
  · intro h s w hempty
    constructor
    · show (emitLoop (h ++ [⟨"assistant", .str content⟩]) s w 0
        (segmentParagraphs content)).1 = []
      rw [hempty]
      rfl
    · rfl

/-- C9: re-running the segmenter on the newline-join of its own output
yields the same unit sequence.  The claim's proviso (no unit contains an
embedded alphanumeric-free line) is automatically satisfied — units of the
split contain no newline at all — so the property holds unconditionally. -/
theorem c9_segmenter_idempotent (s : List Char) :
    segmentParagraphs (joinNl (segmentParagraphs s)) = segmentParagraphs s := by
  cases hseg : segmentParagraphs s with
  | nil =>
    show segmentParagraphs (joinNl []) = []
    rw [show joinNl [] = [] from rfl]
    rw [segmentParagraphs, show splitOnNl [] = [[]] from rfl]
    rw [List.filter_cons, show keepPara [] = false from by decide]
    simp
  | cons u rest =>
    have hall : ∀ v ∈ u :: rest, '\n' ∉ v := by
      intro v hv
      have : v ∈ splitOnNl s :=
        List.mem_of_mem_filter (hseg ▸ hv : v ∈ segmentParagraphs s)
      exact not_nl_mem_splitOnNl this
    have hkeep : ∀ v ∈ u :: rest, keepPara v = true := by
      intro v hv
      exact List.of_mem_filter (hseg ▸ hv : v ∈ segmentParagraphs s)
    rw [segmentParagraphs, splitOnNl_joinNl _ (by simp) hall]
    exact List.filter_eq_self.mpr hkeep

/-- C7: detectThemes is total and never returns an empty result: for every
content value (including the empty string) it returns at least one theme;
when the keyword scan matches nothing it returns exactly the single
registry entry selected by the uniformly distributed random index, and
every registry entry is reachable this way. -/
theorem c7_detectThemes_total (m : MsgContent) (rand : Fin themesList.length) :
    1 ≤ (detectThemes m rand).length ∧
    (matchedThemes (detectThemesText m) = [] →
      detectThemes m rand = [themesList.get rand]) ∧
    (∀ th ∈ themesList, matchedThemes (detectThemesText m) = [] →
      ∃ r : Fin themesList.length, detectThemes m r = [th]) := by
  refine ⟨?_, ?_, ?_⟩
  · rw [detectThemes]
    cases hd : (matchedThemes (detectThemesText m)).isEmpty with
    | true => simp
    | false =>
      simp only [Bool.false_eq_true, if_false]
      have : matchedThemes (detectThemesText m) ≠ [] := by
        intro he; rw [he] at hd; simp at hd
      exact Nat.one_le_iff_ne_zero.mpr
        (fun hz => this (List.eq_nil_of_length_eq_zero hz))
  · intro hempty
    rw [detectThemes, hempty]
    simp
  · intro th hth hempty
    obtain ⟨k, hk⟩ := List.mem_iff_get.mp hth
    refine ⟨k, ?_⟩
    rw [detectThemes, hempty]
    simp only [List.isEmpty_nil, if_true, List.cons.injEq, and_true]
    exact hk

/-- C2: the claim is contradicted by the code.  `detectThemes` receives
`lastMessage.content`; when that is an array of content parts, the guard
`Array.isArray(userMessage.content)` reads the (absent) `content` property
of the array, so the scanned text is the empty string and the keyword
`magic`, although present in a text part, matches nothing — the scan
returns no theme and the random fallback fires instead.  Against the
spec-intended flattening of the text parts, the same input matches the
MAGIC entry. -/
theorem c2_code_bug :
    detectThemesText (.parts [ContentPart.text "magic".toList]) = [] ∧
    matchedThemes (detectThemesText (.parts [ContentPart.text "magic".toList])) = [] ∧
    textPartsJoined [ContentPart.text "magic".toList] = "magic".toList ∧
    (matchedThemes (textPartsJoined [ContentPart.text "magic".toList])).map
      ThemeEntry.type = ["MAGIC"] := by
  refine ⟨rfl, by decide, by decide, by decide⟩

/-- C10: if the completion call itself raises, the assistant message is
never appended — every record written (in particular the terminal error
record) carries exactly the caller's original dialog history, and with a
writable stream the output is exactly that one error record. -/
theorem c10_generating_atomic (history : List ChatMessage) (e : String)
    (synth : Nat → List Char → Except String (List Char)) (w : Bool) :
    (∀ r ∈ (streamResponse history (.error e) synth w).records,
      r.dialogHistory = history) ∧
    (w = true →
      (streamResponse history (.error e) synth w).records =
        [errorRecord history e]) := by
  constructor
  · intro r hr
    by_cases hw : w = true
    · simp only [streamResponse, hw, if_true, List.mem_singleton] at hr
      subst hr; rfl
    · simp only [Bool.not_eq_true] at hw
      simp [streamResponse, hw] at hr
  · intro hw
    simp [streamResponse, hw]

/-- C10 witness: a concrete completion failure leaves a one-message history
untouched in the terminal record. -/
theorem c10_generating_atomic_witness :
    (streamResponse [⟨"user", .str "hi".toList⟩] (.error "boom") constSynth
      true).records = [errorRecord [⟨"user", .str "hi".toList⟩] "boom"] :=
  (c10_generating_atomic [⟨"user", .str "hi".toList⟩] "boom" constSynth
    true).2 rfl

/-- C5: on a successful completion the assistant's reply is appended to
the history exactly once, before the first record is emitted — every
record (progress or error) carries the original history extended by the
single assistant message — and across any stream the `dialogHistory`
lengths of the records are monotonically non-decreasing. -/
theorem c5_history_monotone (history : List ChatMessage)
    (completion : Except String (List Char))
    (synth : Nat → List Char → Except String (List Char)) (w : Bool) :
    (∀ content, completion = .ok content →
      ∀ r ∈ (streamResponse history completion synth w).records,
        r.dialogHistory = history ++ [⟨"assistant", MsgContent.str content⟩]) ∧
    List.Chain' (· ≤ ·)
      ((streamResponse history completion synth w).records.map
        (fun r => r.dialogHistory.length)) := by
  constructor
  · intro content hc r hr
    subst hc
    exact emitLoop_dialogHistory _ synth w _ 0 r hr
  · cases completion with
    | error e =>
      exact chain_le_of_const ((c10_generating_atomic history e synth w).1)
    | ok content =>
      exact chain_le_of_const (emitLoop_dialogHistory _ synth w _ 0)

/-- C5 witness: the record-history lengths of a concrete successful run
form a monotone chain. -/
theorem c5_history_monotone_witness :
    List.Chain' (· ≤ ·)
      ((streamResponse [⟨"user", .str "hi".toList⟩] (.ok "ok".toList)
        constSynth true).records.map (fun r => r.dialogHistory.length)) :=
  (c5_history_monotone [⟨"user", .str "hi".toList⟩] (.ok "ok".toList)
    constSynth true).2

/-- C3: the writer is closed on every path (success, empty-after-
segmentation, or failure, and even when writing the error record itself
throws, modelled by `w = false`); when the error-record write succeeds,
an exception after the stream is opened (completion failure or synthesis
failure) produces exactly one record carrying an error, it is the last
record of the stream, it has `currentParagraph = none`, and it carries the
raised error's message; with no exception, no record carries an error. -/
theorem c3_terminal_error (history : List ChatMessage)
    (completion : Except String (List Char))
    (synth : Nat → List Char → Except String (List Char)) (w : Bool) :
    (streamResponse history completion synth w).closed = true ∧
    (w = true →
      (terminalError completion synth = none →
        ∀ r ∈ (streamResponse history completion synth w).records,
          r.error = none) ∧
      (∀ e, terminalError completion synth = some e →
        ((streamResponse history completion synth w).records.filter
          (fun r => r.error.isSome)).length = 1 ∧
        ∃ dh, (streamResponse history completion synth w).records.getLast? =
          some ⟨dh, none, some e⟩)) := by
  constructor
  · cases completion <;> rfl
  · intro hw
    subst hw
    constructor
    · intro hnone r hr
      cases completion with
      | error e => simp [terminalError] at hnone
      | ok content =>
        simp only [terminalError] at hnone
        exact emitLoop_err_none _ synth true _ 0 hnone r hr
    · intro e he
      cases completion with
      | error e' =>
        simp only [terminalError, Option.some.injEq] at he
        subst he
        constructor
        · simp [streamResponse, errorRecord]
        · exact ⟨history, by simp [streamResponse, errorRecord]⟩
      | ok content =>
        simp only [terminalError] at he
        obtain ⟨h1, h2⟩ := emitLoop_err_some _ synth true _ 0 e he
        constructor
        · show ((emitLoop (history ++ [⟨"assistant", .str content⟩]) synth true 0
            (segmentParagraphs content)).1.filter (fun r => r.error.isSome)).length = 1
          rw [h1]
          simp
        · refine ⟨history ++ [⟨"assistant", .str content⟩], ?_⟩
          show (emitLoop (history ++ [⟨"assistant", .str content⟩]) synth true 0
            (segmentParagraphs content)).1.getLast? =
            some (errorRecord (history ++ [⟨"assistant", .str content⟩]) e)
          exact h2 rfl

/-- C3 witness: a concrete synthesis failure yields exactly one terminal
error record, placed last, and the stream is closed. -/
theorem c3_terminal_error_witness :
    (streamResponse [] (.ok "hi".toList)
      (fun _ _ => .error "tts down") true).closed = true ∧
    ((streamResponse [] (.ok "hi".toList)
      (fun _ _ => .error "tts down") true).records.filter
        (fun r => r.error.isSome)).length = 1 :=
  ⟨(c3_terminal_error [] (.ok "hi".toList)
      (fun _ _ => .error "tts down") true).1,
   ((c3_terminal_error [] (.ok "hi".toList)
      (fun _ _ => .error "tts down") true).2 rfl).2 "tts down" (by decide) |>.1⟩

/-- C6: a paragraph longer than 4096 characters is never passed to the
synthesizer, no emitted record carries its text, and the skip alone does
not fail the stream: when every synthesis call succeeds, no record carries
an error even in the presence of oversized paragraphs. -/
theorem c6_oversized_skip (history : List ChatMessage) (content : List Char)
    (synth : Nat → List Char → Except String (List Char)) (w : Bool)
    (p : List Char) (hp : p ∈ segmentParagraphs content)
    (hlen : p.length > OPENAI_TTS_TEXT_LENGTH_MAX) :
    (∀ cp ∈ (streamResponse history (.ok content) synth w).synthCalls,
      cp.2 ≠ p) ∧
    (∀ r ∈ (streamResponse history (.ok content) synth w).records,
      ∀ u, r.currentParagraph = some u → u.text ≠ p) ∧
    ((∀ k q, ∃ a, synth k q = .ok a) →
      ∀ r ∈ (streamResponse history (.ok content) synth w).records,
        r.error = none) := by
  refine ⟨?_, ?_, ?_⟩
  · intro cp hcp heq
    have hb := (emitLoop_synthCalls _ synth w _ 0 cp hcp).1
    rw [heq] at hb
    exact absurd hlen (Nat.not_lt.mpr hb)
  · intro r hr u hu heq
    have hb := (emitLoop_progress_para _ synth w _ 0 r hr u hu).1
    rw [heq] at hb
    exact absurd hlen (Nat.not_lt.mpr hb)
  · intro hok r hr
    exact emitLoop_err_none _ synth w _ 0
      (firstSynthErr_all_ok synth hok _ 0) r hr

/-- C6 witness: a reply that is one single 4097-character paragraph is
never synthesized and produces no error record. -/
theorem c6_oversized_skip_witness :
    (streamResponse [] (.ok bigPara) constSynth true).synthCalls.all
      (fun cp => !(cp.2 = bigPara : Bool)) = true ∧
    (streamResponse [] (.ok bigPara) constSynth true).records.all
      (fun r => r.error = none : StreamRecord → Bool) = true := by
  have h := c6_oversized_skip [] bigPara constSynth true bigPara
    (by rw [segment_bigPara]; exact List.mem_singleton.mpr rfl)
    (by rw [bigPara_length]; decide)
  constructor
  · exact List.all_eq_true.mpr (fun cp hcp => by
      simpa using h.1 cp hcp)
  · exact List.all_eq_true.mpr (fun r hr => by
      simpa using h.2.2 (fun k q => ⟨['x'], rfl⟩) r hr)

lemma emitLoop_cons_oversized (h : List ChatMessage)
    (s : Nat → List Char → Except String (List Char)) (w : Bool)
    (i : Nat) (p : List Char) (ps : List (List Char))
    (hp : p.length > OPENAI_TTS_TEXT_LENGTH_MAX) :
    emitLoop h s w i (p :: ps) = emitLoop h s w (i + 1) ps := by
  rw [emitLoop, if_pos hp]

/-- Evaluation of the stream produced by the counterexample reply. -/
lemma cex_records : (streamResponse [] (.ok cexContent) constSynth true).records =
    [⟨[⟨"assistant", .str cexContent⟩], some ⟨1, ['b'], ['x']⟩, none⟩] := by
  simp only [streamResponse, List.nil_append]
  rw [segment_cexContent]
  rw [emitLoop_cons_oversized _ _ _ _ _ _ (by rw [bigPara_length]; decide)]
  rfl

/-- C1 counterexample: a successful run (no error record) over the reply
"4097 a's, newline, b" emits exactly N = 1 progress record, but that 0-th
record's `currentParagraph.index` is 1, not 0: the skip of the oversized
first paragraph advances the loop index, leaving a gap, so "the i-th
progress record's index equals i" fails as stated. -/
theorem c1_ordering_counterexample :
    progressIndices (streamResponse [] (.ok cexContent) constSynth
      true).records = [1] ∧
    (streamResponse [] (.ok cexContent) constSynth true).records.length = 1 ∧
    ((streamResponse [] (.ok cexContent) constSynth true).records.filter
      (fun r => r.error.isSome)).length = 0 := by
  rw [cex_records]
  refine ⟨rfl, rfl, rfl⟩

/-- C1 (amended): progress records always carry strictly increasing
`currentParagraph.index` values; and for a run in which no surviving
paragraph is oversized and every synthesis call succeeds, the i-th
progress record's index equals i for i in 0..N-1 (indices are positions in
the surviving paragraph sequence, with no gaps).  With oversized
paragraphs, skips leave gaps in the index sequence. -/
theorem c1_ordering (history : List ChatMessage)
    (completion : Except String (List Char))
    (synth : Nat → List Char → Except String (List Char)) (w : Bool) :
    List.Pairwise (· < ·)
      (progressIndices (streamResponse history completion synth w).records) ∧
    (∀ content, completion = .ok content →
      (∀ q ∈ segmentParagraphs content,
        ¬ q.length > OPENAI_TTS_TEXT_LENGTH_MAX) →
      (∀ k q, ∃ a, synth k q = .ok a) →
      progressIndices (streamResponse history completion synth w).records =
        List.range
          (streamResponse history completion synth w).records.length) := by
  constructor
  · cases completion with
    | error e =>
      by_cases hw : w = true
      · simp [streamResponse, hw, progressIndices, errorRecord]
      · simp only [Bool.not_eq_true] at hw
        simp [streamResponse, hw, progressIndices]
    | ok content =>
      exact (emitLoop_indices _ synth w (segmentParagraphs content) 0).1
  · intro content hc hsz hok
    subst hc
    obtain ⟨h1, h2, _⟩ := emitLoop_all_ok _ synth w hok
      (segmentParagraphs content) hsz 0
    show progressIndices (emitLoop _ synth w 0 (segmentParagraphs content)).1 =
      List.range (emitLoop _ synth w 0 (segmentParagraphs content)).1.length
    rw [h1, h2, List.range_eq_range']

/-- C1 witness: a concrete run with one in-bound paragraph has progress
index sequence `[0]` = `range 1`. -/
theorem c1_ordering_witness :
    progressIndices (streamResponse [] (.ok ['b']) constSynth true).records =
      List.range
        (streamResponse [] (.ok ['b']) constSynth true).records.length :=
  (c1_ordering [] (.ok ['b']) constSynth true).2 ['b'] rfl
    (by decide) (fun k q => ⟨['x'], rfl⟩)

/-- C4: with the method, user lookup, age, mode, time and task parameters
valid, a request whose dialogHistory is empty or whose last message's role
is not `user` receives a synchronous 400 response and no stream is opened
(`handleChat` returns before `streamResponse` runs); a non-empty
dialogHistory ending in a `user` message passes validation and the
pipeline proceeds to the stream. -/
theorem c4_validation (env : RequestEnv)
    (completion : Except String (List Char))
    (synth : Nat → List Char → Except String (List Char)) (w : Bool)
    (hm : env.method = "POST") (hu : env.userFound = true)
    (hy : ¬ env.currentYear - env.yob < 0)
    (hq : env.queryTypeParam.getD "qna" ∈ validQueryTypes)
    (ht : (paramTruthy env.currentTimeParam && !env.currentTimeParseOk) = false)
    (hv : (paramTruthy env.visualTaskParam &&
      !((env.visualTaskParam.getD "") ∈ validVisualTasks : Bool)) = false)
    (hb : env.bodyParseOk = true) :
    ((env.dialogHistory.length = 0 ∨
        (env.dialogHistory.getLast?.map ChatMessage.role) ≠ some "user") →
      handleChat env completion synth w =
        .error ⟨400, "The last message must be from the user"⟩) ∧
    ((env.dialogHistory.length ≠ 0 ∧
        (env.dialogHistory.getLast?.map ChatMessage.role) = some "user") →
      handleChat env completion synth w =
        .ok (streamResponse env.dialogHistory completion synth w)) := by
  constructor
  · intro hbad
    rw [handleChat]
    rw [if_neg (by simp [hm]), if_neg (by simp [hu]), if_neg hy]
    rw [if_neg (by simpa using hq), if_neg (by simp [ht]), if_neg (by simp [hv])]
    rw [if_neg (by simp [hb]), if_pos hbad]
  · intro hgood
    rw [handleChat]
    rw [if_neg (by simp [hm]), if_neg (by simp [hu]), if_neg hy]
    rw [if_neg (by simpa using hq), if_neg (by simp [ht]), if_neg (by simp [hv])]
    rw [if_neg (by simp [hb]), if_neg (by push_neg; exact hgood)]

/-- C4 witness: a concrete well-parameterized request with an empty
dialogHistory gets the synchronous 400, and the same request with a
one-user-message history reaches the stream. -/
theorem c4_validation_witness :
    handleChat
      ⟨"POST", true, 2026, 2020, none, none, true, none, true, []⟩
      (.ok ['b']) constSynth true =
      .error ⟨400, "The last message must be from the user"⟩ ∧
    handleChat
      ⟨"POST", true, 2026, 2020, none, none, true, none, true,
        [⟨"user", .str "hi".toList⟩]⟩
      (.ok ['b']) constSynth true =
      .ok (streamResponse [⟨"user", .str "hi".toList⟩] (.ok ['b'])
        constSynth true) :=
  ⟨(c4_validation ⟨"POST", true, 2026, 2020, none, none, true, none, true, []⟩
      (.ok ['b']) constSynth true rfl rfl (by decide) (by decide) rfl rfl
      rfl).1 (Or.inl rfl),
   (c4_validation ⟨"POST", true, 2026, 2020, none, none, true, none, true,
      [⟨"user", .str "hi".toList⟩]⟩
      (.ok ['b']) constSynth true rfl rfl (by decide) (by decide) rfl rfl
      rfl).2 ⟨by decide, rfl⟩⟩

/-- C7 witness: the input "zzz" matches no keyword, and the fallback with
random index 0 returns exactly the ADVENTURE entry. -/
theorem c7_detectThemes_total_witness :
    detectThemes (.str "zzz".toList) ⟨0, by decide⟩ =
      [themesList.get ⟨0, by decide⟩] :=
  (c7_detectThemes_total (.str "zzz".toList) ⟨0, by decide⟩).2.1 (by decide)

/-- C8 witness: the blank-lines-only reply of Scenario E segments to
nothing and the stream closes with zero records. -/
theorem c8_segmenter_witness :
    (streamResponse [] (.ok "\n\n   \n".toList) constSynth true).records = [] ∧
    (streamResponse [] (.ok "\n\n   \n".toList) constSynth true).closed = true :=
  (c8_segmenter "\n\n   \n".toList).2.2.2 [] constSynth true (by decide)

end ChatPipeline
